import Mathlib

/-!
Shallow embedding of the URL-Shorteners repository (Python) in Lean 4.

Source files embedded here:
  src/bloom_filter.py   (SimpleBloomFilter)
  src/database.py       (InMemoryDB)
  src/encoding.py       (base62_encode)
  src/snowflake.py      (Snowflake)
  src/strategies.py     (HashShortener, SnowflakeShortener)
  src/url_shortener.py  (URLShortener)

External collaborators (Python stdlib `hash`, `zlib.crc32`, `hashlib.md5`,
`hashlib.sha1`) are modelled as abstract function parameters gathered in an
`ExtFns` record: the repository's code treats them as opaque digest providers.
Python's `format(n, "x")` (lowercase hex without leading zeros) is repository
level code in `HashShortener._hash`, so it is given a concrete definition.
-/

/-- External collaborators of the core: Python `hash` (may be negative),
`zlib.crc32` (a 32-bit unsigned value), `int(hashlib.md5(v).hexdigest(), 16)`,
and the hex digests of md5 / sha1. -/
structure ExtFns where
  pyHash : String → Int
  crc32 : String → Nat
  md5Int : String → Nat
  md5hex : String → String
  sha1hex : String → String

/-! ## src/bloom_filter.py -/

/-- State of `SimpleBloomFilter.__init__`: `self.size = size; self.bit_array = [0] * size`. -/
structure SimpleBloomFilter where
  size : Nat
  bit_array : List Nat
deriving DecidableEq

namespace SimpleBloomFilter

/-- Constructor `SimpleBloomFilter(size=10000)` with its default argument. -/
def init (size : Nat := 10000) : SimpleBloomFilter :=
  { size := size, bit_array := List.replicate size 0 }

/-- Method `_hashes`: `[hash(value) % size, zlib.crc32(value.encode()) % size,
int(hashlib.md5(value.encode()).hexdigest(), 16) % size]`.  Python's `%` on a
possibly-negative `hash(value)` is `Int.emod`, non-negative for positive
modulus. -/
def _hashes (ext : ExtFns) (bf : SimpleBloomFilter) (value : String) : List Nat :=
  [ (ext.pyHash value % (bf.size : Int)).toNat,
    ext.crc32 value % bf.size,
    ext.md5Int value % bf.size ]

/-- Method `add`: `for h in self._hashes(value): self.bit_array[h] = 1`. -/
def add (ext : ExtFns) (bf : SimpleBloomFilter) (value : String) : SimpleBloomFilter :=
  { bf with bit_array := (bf._hashes ext value).foldl (fun arr h => arr.set h 1) bf.bit_array }

/-- Method `contains`: `all(self.bit_array[h] == 1 for h in self._hashes(value))`. -/
def contains (ext : ExtFns) (bf : SimpleBloomFilter) (value : String) : Bool :=
  (bf._hashes ext value).all (fun h => bf.bit_array.getD h 0 == 1)

end SimpleBloomFilter

/-! ## src/database.py -/

/-- Python dict `self.map` as an association list in insertion order with
unique keys; `self.map[k] = v` overwrites in place or appends. -/
def mapInsert (m : List (String × String)) (k v : String) : List (String × String) :=
  if m.any (fun p => p.1 == k) then m.map (fun p => if p.1 == k then (k, v) else p)
  else m ++ [(k, v)]

/-- Python `self.map.get(k, None)`. -/
def mapGet (m : List (String × String)) (k : String) : Option String :=
  (m.find? (fun p => p.1 == k)).map (fun p => p.2)

/-- State of `InMemoryDB`: `self.map = {}` (short → long) and
`self.bloom = SimpleBloomFilter()`. -/
structure InMemoryDB where
  map : List (String × String)
  bloom : SimpleBloomFilter
deriving DecidableEq

namespace InMemoryDB

/-- Constructor `InMemoryDB()`. -/
def init : InMemoryDB := { map := [], bloom := SimpleBloomFilter.init }

/-- Method `exists`: `return self.bloom.contains(short_url)` (named `existsBloom`
because `exists` is reserved in Lean). -/
def existsBloom (ext : ExtFns) (db : InMemoryDB) (short_url : String) : Bool :=
  db.bloom.contains ext short_url

/-- Method `save`: `self.map[short_url] = long_url; self.bloom.add(short_url)`. -/
def save (ext : ExtFns) (db : InMemoryDB) (short_url long_url : String) : InMemoryDB :=
  { map := mapInsert db.map short_url long_url, bloom := db.bloom.add ext short_url }

/-- Method `get`: `return self.map.get(short_url, None)`. -/
def get (db : InMemoryDB) (short_url : String) : Option String :=
  mapGet db.map short_url

end InMemoryDB

/-! ## src/encoding.py -/

/-- Constant `BASE62 = "0123456789abcdefghijklmnopqrstuvwxyzABCDEFGHIJKLMNOPQRSTUVWXYZ"`. -/
def BASE62 : String := "0123456789abcdefghijklmnopqrstuvwxyzABCDEFGHIJKLMNOPQRSTUVWXYZ"

/-- The digits produced by the `while num > 0` loop of `base62_encode`,
least-significant first (the Python loop appends `BASE62[rem]` for
`num, rem = divmod(num, 62)` and reverses at the end). -/
def base62_digits (num : Nat) : List Char :=
  if h : num = 0 then []
  else BASE62.toList.getD (num % 62) ' ' :: base62_digits (num / 62)
decreasing_by exact Nat.div_lt_self (Nat.pos_of_ne_zero h) (by norm_num)

/-- Function `base62_encode`: `"0"` for zero, otherwise the reversed digit list joined. -/
def base62_encode (num : Nat) : String :=
  if num = 0 then "0"
  else String.mk (base62_digits num).reverse

/-! ## src/snowflake.py -/

/-- Mutable state of `Snowflake`: `self.last_timestamp = -1; self.sequence = 0`.
The lock only serialises `generate`; the embedding passes the clock reading
(`int(time.time() * 1000)`) as an explicit argument. -/
structure SnowflakeState where
  last_timestamp : Int
  sequence : Nat
deriving DecidableEq

namespace Snowflake

/-- Constructor `Snowflake()`. -/
def init : SnowflakeState := { last_timestamp := -1, sequence := 0 }

/-- Method `generate` with the clock reading `timestamp` passed in: if it equals
`last_timestamp` increment the sequence, else reset it to zero; store the
pair and return `(timestamp << 12) | sequence`. -/
def generate (s : SnowflakeState) (timestamp : Nat) : SnowflakeState × Nat :=
  let seq := if (timestamp : Int) = s.last_timestamp then s.sequence + 1 else 0
  ({ last_timestamp := (timestamp : Int), sequence := seq }, (timestamp <<< 12) ||| seq)

/-- Run `generate` over a list of successive clock readings, collecting the
state after each call together with the returned ID. -/
def run (s : SnowflakeState) : List Nat → List (SnowflakeState × Nat)
  | [] => []
  | ts :: rest =>
    let p := generate s ts
    p :: run p.1 rest

end Snowflake

/-! ## src/strategies.py -/

/-- Python `format(n, "x")`: lowercase hex, no leading zeros, `"0"` for zero. -/
def hexDigits (num : Nat) : List Char :=
  if h : num = 0 then []
  else "0123456789abcdef".toList.getD (num % 16) ' ' :: hexDigits (num / 16)
decreasing_by exact Nat.div_lt_self (Nat.pos_of_ne_zero h) (by norm_num)

/-- Python `format(num, "x")` as a string. -/
def formatHex (num : Nat) : String :=
  if num = 0 then "0" else String.mk (hexDigits num).reverse

/-- State of `HashShortener.__init__(self, method="md5")`. -/
structure HashShortener where
  method : String
deriving DecidableEq

namespace HashShortener

/-- Method `_hash`: crc32 rendered with `format(..., "x")`, sha1 / md5 hexdigests;
any other name falls through to the `else` (md5) branch. -/
def _hash (ext : ExtFns) (hs : HashShortener) (long_url : String) : String :=
  if hs.method = "crc32" then formatHex (ext.crc32 long_url)
  else if hs.method = "sha1" then ext.sha1hex long_url
  else ext.md5hex long_url

/-- The `while db.exists(short)` loop body:
`short += "unique"; short = hashlib.md5(short.encode()).hexdigest()[:7]`.
The Python loop is unbounded; `fuel` bounds the number of iterations the
embedding will unfold, returning `none` when the loop has not yet exited. -/
def hashLoop (ext : ExtFns) (db : InMemoryDB) : Nat → String → Option String
  | 0, _ => none
  | fuel + 1, short =>
    if db.existsBloom ext short then
      hashLoop ext db fuel ((ext.md5hex (short ++ "unique")).take 7)
    else some short

/-- Method `get_shortened_url`: hash, take first 7 characters, run the collision
loop, then `db.save(short, long_url); return short`. -/
def get_shortened_url (ext : ExtFns) (hs : HashShortener) (fuel : Nat)
    (long_url : String) (db : InMemoryDB) : Option (String × InMemoryDB) :=
  match hashLoop ext db fuel ((hs._hash ext long_url).take 7) with
  | none => none
  | some short => some (short, db.save ext short long_url)

/-- Method `get_longer_url`: `return db.get(shortened_url)`. -/
def get_longer_url (db : InMemoryDB) (shortened_url : String) : Option String :=
  db.get shortened_url

end HashShortener

namespace SnowflakeShortener

/-- Method `SnowflakeShortener.get_shortened_url`: generate a Snowflake ID, base62
encode it, `db.save(short, long_url); return short`.  The mutated generator
state is returned alongside. -/
def get_shortened_url (ext : ExtFns) (st : SnowflakeState) (ts : Nat)
    (long_url : String) (db : InMemoryDB) : String × SnowflakeState × InMemoryDB :=
  let p := Snowflake.generate st ts
  let short := base62_encode p.2
  (short, p.1, db.save ext short long_url)

/-- Method `get_longer_url`: `return db.get(shortened_url)`. -/
def get_longer_url (db : InMemoryDB) (shortened_url : String) : Option String :=
  db.get shortened_url

end SnowflakeShortener

/-! ## src/url_shortener.py -/

/-- The two `ShorteningStrategy` implementations, with their instance state
(`HashShortener.method`, `SnowflakeShortener.snowflake`). -/
inductive Strategy where
  | hash (hs : HashShortener)
  | snowflake (st : SnowflakeState)
deriving DecidableEq

/-- State of `URLShortener.__init__`: `self.strategy = strategy; self.db = InMemoryDB()`
(the structure admits any current state; `initURLShortener` is the
constructor). -/
structure URLShortener where
  strategy : Strategy
  db : InMemoryDB
deriving DecidableEq

/-- Constructor `URLShortener(strategy)`. -/
def initURLShortener (strategy : Strategy) : URLShortener :=
  { strategy := strategy, db := InMemoryDB.init }

namespace URLShortener

/-- Method `set_strategy`: `self.strategy = strategy`. -/
def set_strategy (u : URLShortener) (strategy : Strategy) : URLShortener :=
  { u with strategy := strategy }

/-- Method `shorten`: `return self.strategy.get_shortened_url(long_url, self.db)`.
`fuel` bounds the hash strategy's collision loop; `ts` is the clock reading
the snowflake strategy would observe.  Returns the code and the updated
shortener (strategy state and shared db). -/
def shorten (ext : ExtFns) (fuel ts : Nat) (u : URLShortener) (long_url : String) :
    Option (String × URLShortener) :=
  match u.strategy with
  | .hash hs =>
    match hs.get_shortened_url ext fuel long_url u.db with
    | none => none
    | some (short, db) => some (short, { u with db := db })
  | .snowflake st =>
    let r := SnowflakeShortener.get_shortened_url ext st ts long_url u.db
    some (r.1, { strategy := .snowflake r.2.1, db := r.2.2 })

/-- Method `resolve`: `return self.strategy.get_longer_url(short_url, self.db)`. -/
def resolve (u : URLShortener) (short_url : String) : Option String :=
  match u.strategy with
  | .hash _ => HashShortener.get_longer_url u.db short_url
  | .snowflake _ => SnowflakeShortener.get_longer_url u.db short_url

/-- Fold `shorten` over a list of `(clock reading, target)` inputs. -/
def runShorten (ext : ExtFns) (fuel : Nat) (u : URLShortener) :
    List (Nat × String) → Option URLShortener
  | [] => some u
  | (ts, t) :: rest =>
    match u.shorten ext fuel ts t with
    | none => none
    | some (_, u1) => runShorten ext fuel u1 rest

end URLShortener

/-! ## Helper lemmas: bit array manipulation -/

lemma getD_set_one (l : List Nat) (i j : Nat) (h : l.getD i 0 = 1) :
    (l.set j 1).getD i 0 = 1 := by
  induction l generalizing i j with
  | nil => simp [List.getD] at h
  | cons a tl ih =>
    cases j with
    | zero =>
      cases i with
      | zero => simp [List.getD]
      | succ i => simpa [List.getD] using h
    | succ j =>
      cases i with
      | zero => simpa [List.getD] using h
      | succ i => simpa [List.getD] using ih i j (by simpa [List.getD] using h)

lemma getD_set_self_one (l : List Nat) (i : Nat) (h : i < l.length) :
    (l.set i 1).getD i 0 = 1 := by
  induction l generalizing i with
  | nil => simp at h
  | cons a tl ih =>
    cases i with
    | zero => simp [List.getD]
    | succ i => simpa [List.getD] using ih i (by simpa using h)

lemma getD_foldl_set_one (js : List Nat) (l : List Nat) (i : Nat) (h : l.getD i 0 = 1) :
    (js.foldl (fun arr h => arr.set h 1) l).getD i 0 = 1 := by
  induction js generalizing l with
  | nil => exact h
  | cons j js ih => exact ih _ (getD_set_one l i j h)

lemma length_foldl_set (js : List Nat) (l : List Nat) :
    (js.foldl (fun arr h => arr.set h 1) l).length = l.length := by
  induction js generalizing l with
  | nil => rfl
  | cons j js ih => rw [List.foldl_cons, ih (l.set j 1), List.length_set]

namespace SimpleBloomFilter

lemma add_size (ext : ExtFns) (bf : SimpleBloomFilter) (v : String) :
    (bf.add ext v).size = bf.size := rfl

lemma add_length (ext : ExtFns) (bf : SimpleBloomFilter) (v : String) :
    (bf.add ext v).bit_array.length = bf.bit_array.length :=
  length_foldl_set _ _

lemma _hashes_lt (ext : ExtFns) (bf : SimpleBloomFilter) (v : String)
    (hpos : 0 < bf.size) : ∀ i ∈ bf._hashes ext v, i < bf.size := by
  intro i hi
  simp only [_hashes, List.mem_cons, List.mem_singleton, List.not_mem_nil, or_false] at hi
  rcases hi with h | h | h
  · subst h
    have h0 : (0 : Int) < (bf.size : Int) := by exact_mod_cast hpos
    have h1 : ext.pyHash v % (bf.size : Int) < (bf.size : Int) := Int.emod_lt_of_pos _ h0
    have h2 : (0 : Int) ≤ ext.pyHash v % (bf.size : Int) := Int.emod_nonneg _ (by omega)
    omega
  · subst h; exact Nat.mod_lt _ hpos
  · subst h; exact Nat.mod_lt _ hpos

lemma _hashes_add (ext : ExtFns) (bf : SimpleBloomFilter) (v w : String) :
    (bf.add ext w)._hashes ext v = bf._hashes ext v := rfl

lemma getD_foldl_set_mem (js : List Nat) (l : List Nat) (i : Nat) (hi : i ∈ js)
    (hilen : i < l.length) :
    (js.foldl (fun arr h => arr.set h 1) l).getD i 0 = 1 := by
  induction js generalizing l with
  | nil => simp at hi
  | cons j js ih =>
    rcases List.mem_cons.mp hi with h | h
    · subst h
      exact getD_foldl_set_one js _ i (getD_set_self_one _ i hilen)
    · exact ih (l.set j 1) h (by simpa using hilen)

/-- After `add v`, all three of `v`'s bit positions hold `1`. -/
lemma contains_add_self (ext : ExtFns) (bf : SimpleBloomFilter) (v : String)
    (hwf : bf.bit_array.length = bf.size) (hpos : 0 < bf.size) :
    (bf.add ext v).contains ext v = true := by
  have hlt := bf._hashes_lt ext v hpos
  simp only [contains, _hashes_add, List.all_eq_true, beq_iff_eq]
  intro i hi
  have hilen : i < bf.bit_array.length := by rw [hwf]; exact hlt i hi
  exact getD_foldl_set_mem _ _ i hi hilen

/-- Adding never clears a bit: membership verdicts are monotone. -/
lemma contains_mono (ext : ExtFns) (bf : SimpleBloomFilter) (v w : String)
    (h : bf.contains ext v = true) : (bf.add ext w).contains ext v = true := by
  simp only [contains, _hashes_add, List.all_eq_true, beq_iff_eq] at h ⊢
  intro i hi
  exact getD_foldl_set_one _ _ i (h i hi)

end SimpleBloomFilter

/-! ## Helper lemmas: the Python dict model -/

lemma mapGet_cons (p : String × String) (m : List (String × String)) (k : String) :
    mapGet (p :: m) k = bif p.1 == k then some p.2 else mapGet m k := by
  unfold mapGet
  rw [List.find?_cons]
  cases h : (p.1 == k) with
  | true => rfl
  | false => rfl

lemma mapGet_map_update_ne (m : List (String × String)) (k v k' : String) (hne : k' ≠ k) :
    mapGet (m.map (fun p => if p.1 == k then (k, v) else p)) k' = mapGet m k' := by
  induction m with
  | nil => rfl
  | cons a m ih =>
    rw [List.map_cons, mapGet_cons, mapGet_cons]
    cases h1 : (a.1 == k) with
    | true =>
      rw [if_pos rfl]
      have hk : (k == k') = false := beq_eq_false_iff_ne.mpr (Ne.symm hne)
      have hk2 : (a.1 == k') = false := by
        rw [beq_iff_eq] at h1
        exact beq_eq_false_iff_ne.mpr (h1 ▸ Ne.symm hne)
      rw [hk, hk2, cond_false, cond_false]
      exact ih
    | false =>
      rw [if_neg (by simp [h1])]
      cases h3 : (a.1 == k') with
      | true => rw [cond_true, cond_true]
      | false => rw [cond_false, cond_false]; exact ih

lemma mapGet_append_single_ne (m : List (String × String)) (k v k' : String) (hne : k' ≠ k) :
    mapGet (m ++ [(k, v)]) k' = mapGet m k' := by
  induction m with
  | nil =>
    have hk : (k == k') = false := beq_eq_false_iff_ne.mpr (Ne.symm hne)
    rw [List.nil_append, mapGet_cons, hk, cond_false]
  | cons a m ih =>
    rw [List.cons_append, mapGet_cons, mapGet_cons]
    cases h3 : (a.1 == k') with
    | true => rw [cond_true, cond_true]
    | false => rw [cond_false, cond_false]; exact ih

lemma mapGet_map_update_self (m : List (String × String)) (k v : String)
    (hk : m.any (fun p => p.1 == k) = true) :
    mapGet (m.map (fun p => if p.1 == k then (k, v) else p)) k = some v := by
  induction m with
  | nil => simp at hk
  | cons a m ih =>
    rw [List.map_cons, mapGet_cons]
    cases h1 : (a.1 == k) with
    | true => rw [if_pos rfl]; simp
    | false =>
      rw [if_neg (by simp [h1]), h1, cond_false]
      simp only [List.any_cons, h1, Bool.false_or] at hk
      exact ih hk

lemma mapGet_append_single_self (m : List (String × String)) (k v : String)
    (hk : m.any (fun p => p.1 == k) = false) :
    mapGet (m ++ [(k, v)]) k = some v := by
  induction m with
  | nil => rw [List.nil_append, mapGet_cons, beq_self_eq_true, cond_true]
  | cons a m ih =>
    simp only [List.any_cons, Bool.or_eq_false_iff] at hk
    rw [List.cons_append, mapGet_cons, hk.1, cond_false]
    exact ih hk.2

/-- Assignment `m[k] = v` makes `m.get(k)` return `v`. -/
lemma mapGet_insert_self (m : List (String × String)) (k v : String) :
    mapGet (mapInsert m k v) k = some v := by
  unfold mapInsert
  cases h : m.any (fun p => p.1 == k) with
  | true => rw [if_pos rfl]; exact mapGet_map_update_self m k v h
  | false =>
    rw [if_neg (by simp [h])]
    exact mapGet_append_single_self m k v h

/-- Assignment `m[k] = v` leaves every other key's verdict unchanged. -/
lemma mapGet_insert_ne (m : List (String × String)) (k v k' : String) (hne : k' ≠ k) :
    mapGet (mapInsert m k v) k' = mapGet m k' := by
  unfold mapInsert
  cases h : m.any (fun p => p.1 == k) with
  | true => rw [if_pos rfl]; exact mapGet_map_update_ne m k v k' hne
  | false => rw [if_neg (by simp [h])]; exact mapGet_append_single_ne m k v k' hne

/-! ## Helper lemmas: Snowflake bit packing -/

/-- For `b` within the low `n` bits, `(a <<< n) ||| b` is plain addition. -/
lemma shiftLeft_lor_eq_add : ∀ (n a b : Nat), b < 2 ^ n → (a <<< n) ||| b = a * 2 ^ n + b := by
  intro n
  induction n with
  | zero =>
    intro a b hb
    interval_cases b
    simp [Nat.shiftLeft_eq]
  | succ n ih =>
    intro a b hb
    have hsh : a <<< (n + 1) = (a <<< n) * 2 := by
      rw [Nat.shiftLeft_eq, Nat.shiftLeft_eq, Nat.pow_succ, Nat.mul_assoc]
    have heven : (a <<< (n + 1)) % 2 = 0 := by omega
    have hdiv : (a <<< (n + 1)) / 2 = a <<< n := by omega
    have hb2 : b / 2 < 2 ^ n := by
      rw [Nat.pow_succ] at hb
      omega
    have hmod : ((a <<< (n + 1)) ||| b) % 2 = b % 2 := by
      rcases Nat.mod_two_eq_zero_or_one b with h | h
      · have : ¬ (((a <<< (n + 1)) ||| b) % 2 = 1) := by
          rw [Nat.or_mod_two_eq_one]
          push_neg
          omega
        omega
      · rw [h]
        rw [Nat.or_mod_two_eq_one]
        omega
    have hdivor : ((a <<< (n + 1)) ||| b) / 2 = (a <<< n) ||| (b / 2) := by
      rw [Nat.or_div_two, hdiv]
    have hih := ih a (b / 2) hb2
    have hdm : ((a <<< (n + 1)) ||| b) = 2 * (((a <<< (n + 1)) ||| b) / 2) +
        ((a <<< (n + 1)) ||| b) % 2 := by omega
    rw [hdm, hdivor, hih, hmod, Nat.pow_succ]
    ring_nf
    omega

/-- The Snowflake ID with an in-range sequence is `timestamp * 4096 + sequence`. -/
lemma snowflake_id_eq (ts seq : Nat) (h : seq < 4096) :
    (ts <<< 12) ||| seq = ts * 4096 + seq := by
  have := shiftLeft_lor_eq_add 12 ts seq (by norm_num at h ⊢; exact h)
  simpa using this

namespace Snowflake

lemma generate_last (s : SnowflakeState) (ts : Nat) :
    (generate s ts).1.last_timestamp = (ts : Int) := rfl

lemma generate_id (s : SnowflakeState) (ts : Nat) :
    (generate s ts).2 = (ts <<< 12) ||| (generate s ts).1.sequence := rfl

lemma generate_seq_of_eq (s : SnowflakeState) (ts : Nat) (h : (ts : Int) = s.last_timestamp) :
    (generate s ts).1.sequence = s.sequence + 1 := by
  simp [generate, h]

lemma generate_seq_of_ne (s : SnowflakeState) (ts : Nat) (h : (ts : Int) ≠ s.last_timestamp) :
    (generate s ts).1.sequence = 0 := by
  simp [generate, h]

/-- Consecutive IDs in a run grow strictly, provided the clock never goes
backwards and the sequence counter stays inside its 12 bits. -/
lemma run_chain_lt (tss : List Nat) (s : SnowflakeState)
    (hchain : List.Chain' (· ≤ ·) tss)
    (hbound : ∀ p ∈ run s tss, p.1.sequence < 4096)
    (hlast : ∀ t0 ∈ tss.head?, s.last_timestamp ≤ (t0 : Int)) :
    List.Chain' (· < ·) ((run s tss).map Prod.snd) := by
  induction tss generalizing s with
  | nil => simp [run]
  | cons t1 rest ih =>
    cases rest with
    | nil => simp [run]
    | cons t2 rest2 =>
      have hb1 : (generate s t1).1.sequence < 4096 := by
        refine hbound _ ?_
        simp [run]
      have hb2 : (generate (generate s t1).1 t2).1.sequence < 4096 := by
        refine hbound _ ?_
        simp [run]
      have h12 : t1 ≤ t2 := (List.chain'_cons.mp hchain).1
      have hchain2 : List.Chain' (· ≤ ·) (t2 :: rest2) := (List.chain'_cons.mp hchain).2
      have hid1 : (generate s t1).2 = t1 * 4096 + (generate s t1).1.sequence := by
        rw [generate_id]
        exact snowflake_id_eq t1 _ hb1
      have hid2 : (generate (generate s t1).1 t2).2 =
          t2 * 4096 + (generate (generate s t1).1 t2).1.sequence := by
        rw [generate_id]
        exact snowflake_id_eq t2 _ hb2
      have hlt : (generate s t1).2 < (generate (generate s t1).1 t2).2 := by
        by_cases heq : (t2 : Int) = (generate s t1).1.last_timestamp
        · have ht : t2 = t1 := by
            rw [generate_last] at heq
            exact_mod_cast heq
          have hseq := generate_seq_of_eq (generate s t1).1 t2 heq
          rw [hid1, hid2, hseq, ht]
          omega
        · have ht : t1 < t2 := by
            rw [generate_last] at heq
            have : t1 ≠ t2 := fun h => heq (by rw [h])
            omega
          have hseq := generate_seq_of_ne (generate s t1).1 t2 heq
          rw [hid1, hid2, hseq]
          have : (generate s t1).1.sequence < 4096 := hb1
          nlinarith
      have htail : List.Chain' (· < ·) ((run (generate s t1).1 (t2 :: rest2)).map Prod.snd) := by
        refine ih (generate s t1).1 hchain2 ?_ ?_
        · intro p hp
          refine hbound p ?_
          simp only [run]
          exact List.mem_cons_of_mem _ hp
        · intro t0 ht0
          simp only [List.head?_cons, Option.mem_def, Option.some.injEq] at ht0
          subst ht0
          rw [generate_last]
          exact_mod_cast h12
      have hshape : run s (t1 :: t2 :: rest2) =
          (generate s t1) :: run (generate s t1).1 (t2 :: rest2) := rfl
      rw [hshape, List.map_cons]
      rw [List.chain'_cons']
      constructor
      · intro y hy
        have : ((run (generate s t1).1 (t2 :: rest2)).map Prod.snd).head? =
            some (generate (generate s t1).1 t2).2 := by
          simp [run]
        rw [this] at hy
        simp only [Option.mem_def, Option.some.injEq] at hy
        subst hy
        exact hlt
      · exact htail

end Snowflake

/-- With a constant clock stuck at 1 ms, every step of the run increments the
sequence counter without bound. -/
lemma snowflake_run_const_one : ∀ (k j : Nat),
    Snowflake.run { last_timestamp := (1 : Int), sequence := j } (List.replicate k 1) =
      (List.range k).map
        (fun i => ({ last_timestamp := (1 : Int), sequence := j + i + 1 },
          (1 <<< 12) ||| (j + i + 1))) := by
  intro k
  induction k with
  | zero => intro j; rfl
  | succ k ih =>
    intro j
    rw [List.replicate_succ]
    have hgen : Snowflake.generate { last_timestamp := (1 : Int), sequence := j } 1 =
        ({ last_timestamp := (1 : Int), sequence := j + 1 }, (1 <<< 12) ||| (j + 1)) := by
      simp [Snowflake.generate]
    have hshape : Snowflake.run { last_timestamp := (1 : Int), sequence := j }
        (1 :: List.replicate k 1) =
        (Snowflake.generate { last_timestamp := (1 : Int), sequence := j } 1) ::
          Snowflake.run (Snowflake.generate
            { last_timestamp := (1 : Int), sequence := j } 1).1 (List.replicate k 1) := rfl
    rw [hshape, hgen]
    rw [ih (j + 1)]
    rw [List.range_succ_eq_map, List.map_cons, List.map_map]
    refine congrArg₂ List.cons rfl ?_
    apply List.map_congr_left
    intro i _
    have hh : j + 1 + i + 1 = j + (i + 1) + 1 := by omega
    simp only [Function.comp_apply]
    rw [hh]

lemma chain_le_replicate (k x : Nat) : List.Chain' (· ≤ ·) (List.replicate k x) := by
  induction k with
  | zero => simp
  | succ k ih =>
    cases k with
    | zero => simp
    | succ k2 =>
      rw [List.replicate_succ, List.replicate_succ, List.chain'_cons]
      rw [← List.replicate_succ]
      exact ⟨le_refl x, ih⟩

/-! ## Helper lemmas: the hash strategy collision loop -/

lemma getD_replicate_zero : ∀ (n i : Nat), (List.replicate n (0 : Nat)).getD i 0 = 0 := by
  intro n
  induction n with
  | zero => intro i; rfl
  | succ n ih =>
    intro i
    cases i with
    | zero => rfl
    | succ i => simp only [List.replicate_succ, List.getD_cons_succ]; exact ih i

/-- A fresh filter (all bits zero) reports `false` for every value. -/
lemma init_contains_false (ext : ExtFns) (size : Nat) (v : String) :
    (SimpleBloomFilter.init size).contains ext v = false := by
  simp [SimpleBloomFilter.contains, SimpleBloomFilter._hashes, SimpleBloomFilter.init,
    getD_replicate_zero]

lemma init_existsBloom_false (ext : ExtFns) (v : String) :
    InMemoryDB.init.existsBloom ext v = false :=
  init_contains_false ext 10000 v

/-- When the collision loop exits with a candidate, the filter reported that
candidate as absent. -/
lemma hashLoop_exit (ext : ExtFns) (db : InMemoryDB) :
    ∀ (fuel : Nat) (short c : String), HashShortener.hashLoop ext db fuel short = some c →
      db.existsBloom ext c = false := by
  intro fuel
  induction fuel with
  | zero => intro short c h; simp [HashShortener.hashLoop] at h
  | succ fuel ih =>
    intro short c h
    rw [HashShortener.hashLoop] at h
    by_cases hex : db.existsBloom ext short = true
    · rw [if_pos hex] at h
      exact ih _ c h
    · rw [if_neg hex] at h
      have : short = c := by simpa using h
      subst this
      simpa using hex

/-- On the empty store the collision loop never runs: the code is the 7-char
prefix of the digest, a pure function of the target and the digest method. -/
lemma hashShorten_init (ext : ExtFns) (hs : HashShortener) (fuel : Nat) (t : String)
    (h : 0 < fuel) :
    hs.get_shortened_url ext fuel t InMemoryDB.init =
      some ((hs._hash ext t).take 7,
        InMemoryDB.init.save ext ((hs._hash ext t).take 7) t) := by
  obtain ⟨f, rfl⟩ : ∃ f, fuel = f + 1 := ⟨fuel - 1, by omega⟩
  rw [HashShortener.get_shortened_url, HashShortener.hashLoop,
    if_neg (by simp [init_existsBloom_false])]

lemma contains_foldl_add (ext : ExtFns) (v : String) :
    ∀ (ws : List String) (b : SimpleBloomFilter), b.contains ext v = true →
      (ws.foldl (fun b w => b.add ext w) b).contains ext v = true := by
  intro ws
  induction ws with
  | nil => intro b h; exact h
  | cons w ws ih =>
    intro b h
    exact ih _ (SimpleBloomFilter.contains_mono ext b v w h)

/-! ## Concrete external-collaborator instances used by the witnesses.
The digest values are arbitrary sample points of the abstract collaborators,
except where a comment records a real value of the Python library function. -/

/-- All hash collaborators constant; md5 and sha1 hex digests have their real
lengths (32 and 40).  `crc32 ↦ 0` agrees with the real `zlib.crc32(b"") == 0`. -/
def extA : ExtFns :=
  { pyHash := fun _ => 0,
    crc32 := fun _ => 0,
    md5Int := fun _ => 0,
    md5hex := fun _ => "0123456789abcdef0123456789abcdef",
    sha1hex := fun _ => "0123456789abcdef0123456789abcdef01234567" }

/-- Bloom hash collaborators that send `"k0"` to slot 0 and everything else to
slot 1, so a filter with bits `[1, 0]` contains exactly the strings hashing
to 0. -/
def extB : ExtFns :=
  { pyHash := fun s => if s = "k0" then 0 else 1,
    crc32 := fun s => if s = "k0" then 0 else 1,
    md5Int := fun s => if s = "k0" then 0 else 1,
    md5hex := fun _ => "0123456789abcdef0123456789abcdef",
    sha1hex := fun _ => "0123456789abcdef0123456789abcdef01234567" }

/-! ## C1 -/

/-- C1: for every value `v` and every (well-formed) `SimpleBloomFilter`, after
`add(v)` the query `contains(v)` returns `true`, and it keeps returning `true`
after any further sequence of `add` calls: bits are only ever set, never
cleared, so the index never reports an inserted value as absent. -/
theorem bloom_no_false_negatives (ext : ExtFns) (bf : SimpleBloomFilter) (v : String)
    (ws : List String) (hwf : bf.bit_array.length = bf.size) (hpos : 0 < bf.size) :
    (ws.foldl (fun b w => b.add ext w) (bf.add ext v)).contains ext v = true :=
  contains_foldl_add ext v ws (bf.add ext v)
    (SimpleBloomFilter.contains_add_self ext bf v hwf hpos)

/-- Witness for C1 at a concrete filter of size 5, value `"x"`, and two
subsequent insertions. -/
theorem bloom_no_false_negatives_witness :
    (SimpleBloomFilter.init 5).bit_array.length = (SimpleBloomFilter.init 5).size ∧
    0 < (SimpleBloomFilter.init 5).size ∧
    ((["y", "z"].foldl (fun b w => b.add extA w)
      ((SimpleBloomFilter.init 5).add extA "x")).contains extA "x" = true) :=
  ⟨rfl, by decide,
    bloom_no_false_negatives extA (SimpleBloomFilter.init 5) "x" ["y", "z"] rfl (by decide)⟩

/-! ## C2 -/

/-- C2: for every target `t` and every `URLShortener` whose current strategy is
the snowflake strategy, `resolve (shorten t)` returns `t`: the sequential
allocator's code is saved in the shared store and immediately resolves back. -/
theorem snowflake_roundtrip (ext : ExtFns) (fuel ts : Nat) (u : URLShortener)
    (t : String) (st : SnowflakeState) (h : u.strategy = .snowflake st) :
    ∃ c u1, u.shorten ext fuel ts t = some (c, u1) ∧ u1.resolve c = some t := by
  obtain ⟨strat, db⟩ := u
  simp only at h
  subst h
  refine ⟨base62_encode (Snowflake.generate st ts).2, _, rfl, ?_⟩
  simp only [URLShortener.resolve, SnowflakeShortener.get_longer_url, InMemoryDB.get,
    SnowflakeShortener.get_shortened_url, InMemoryDB.save]
  exact mapGet_insert_self _ _ _

/-- Witness for C2 at a concrete snowflake shortener, clock reading 1, target
`"http://example.com"`. -/
theorem snowflake_roundtrip_witness :
    (initURLShortener (.snowflake Snowflake.init)).strategy = .snowflake Snowflake.init ∧
    ∃ c u1, (initURLShortener (.snowflake Snowflake.init)).shorten extA 1 1
        "http://example.com" = some (c, u1) ∧ u1.resolve c = some "http://example.com" :=
  ⟨rfl, snowflake_roundtrip extA 1 1 (initURLShortener (.snowflake Snowflake.init))
    "http://example.com" Snowflake.init rfl⟩

/-! ## C3 -/

/-- C3: with an empty store the collision loop never runs, so the code returned
by `HashShortener.get_shortened_url` is a pure function of the target and the
digest method: two runs against two freshly constructed empty `InMemoryDB`
instances (any positive fuels) return the same code, namely the 7-character
prefix of the digest. -/
theorem hash_deterministic_on_empty_store (ext : ExtFns) (hs : HashShortener)
    (t : String) (fuel1 fuel2 : Nat) (h1 : 0 < fuel1) (h2 : 0 < fuel2) :
    (hs.get_shortened_url ext fuel1 t InMemoryDB.init).map Prod.fst =
      (hs.get_shortened_url ext fuel2 t InMemoryDB.init).map Prod.fst ∧
    (hs.get_shortened_url ext fuel1 t InMemoryDB.init).map Prod.fst =
      some ((hs._hash ext t).take 7) := by
  rw [hashShorten_init ext hs fuel1 t h1, hashShorten_init ext hs fuel2 t h2]
  constructor
  · rfl
  · rw [Option.map_some']

/-- Witness for C3: md5 method, target `"https://example.com/a"`, fuels 1, 2. -/
theorem hash_deterministic_on_empty_store_witness :
    0 < 1 ∧ 0 < 2 ∧
    ((HashShortener.mk "md5").get_shortened_url extA 1 "https://example.com/a"
        InMemoryDB.init).map Prod.fst =
      ((HashShortener.mk "md5").get_shortened_url extA 2 "https://example.com/a"
        InMemoryDB.init).map Prod.fst :=
  ⟨by decide, by decide,
    (hash_deterministic_on_empty_store extA (HashShortener.mk "md5")
      "https://example.com/a" 1 2 (by decide) (by decide)).1⟩

/-! ## C8 -/

/-- C8: for any method name other than `"crc32"` and `"sha1"`, `_hash` falls
through to the `else` branch and behaves exactly like the default `"md5"`
configuration, and so does `get_shortened_url`; no error is surfaced. -/
theorem unknown_method_falls_back_to_md5 (ext : ExtFns) (hs : HashShortener)
    (t : String) (fuel : Nat) (db : InMemoryDB)
    (h1 : hs.method ≠ "crc32") (h2 : hs.method ≠ "sha1") :
    hs._hash ext t = (HashShortener.mk "md5")._hash ext t ∧
    hs.get_shortened_url ext fuel t db =
      (HashShortener.mk "md5").get_shortened_url ext fuel t db := by
  have hh : hs._hash ext t = ext.md5hex t := by
    rw [HashShortener._hash, if_neg h1, if_neg h2]
  have hm : (HashShortener.mk "md5")._hash ext t = ext.md5hex t := by
    rw [HashShortener._hash, if_neg (by decide), if_neg (by decide)]
  refine ⟨hh.trans hm.symm, ?_⟩
  rw [HashShortener.get_shortened_url, HashShortener.get_shortened_url, hh, hm]

/-- Witness for C8 at the unrecognized method name `"sha256"`. -/
theorem unknown_method_falls_back_to_md5_witness :
    ("sha256" : String) ≠ "crc32" ∧ ("sha256" : String) ≠ "sha1" ∧
    (HashShortener.mk "sha256")._hash extA "u" = (HashShortener.mk "md5")._hash extA "u" :=
  ⟨by decide, by decide,
    (unknown_method_falls_back_to_md5 extA (HashShortener.mk "sha256") "u" 1
      InMemoryDB.init (by decide) (by decide)).1⟩

/-! ## C10 -/

/-- C10: `set_strategy` mutates only the strategy field: the `db` field is
unchanged, and since both strategies' `get_longer_url` is `db.get`, `resolve`
returns the same answer for every code after the swap as before. -/
theorem set_strategy_frame (u : URLShortener) (s : Strategy) (c : String) :
    (u.set_strategy s).db = u.db ∧ (u.set_strategy s).resolve c = u.resolve c := by
  obtain ⟨strat, db⟩ := u
  cases strat <;> cases s <;> exact ⟨rfl, rfl⟩

/-! ## C7 -/

/-- C7 counterexample: the codes allocated under one strategy ARE visible after
`set_strategy`, because `URLShortener` owns a single shared `InMemoryDB` and
`set_strategy` replaces only the strategy object.  A code allocated under the
snowflake strategy still resolves (to its target) after switching to the hash
strategy, contradicting the claim that it does not resolve. -/
theorem strategy_swap_isolation_counterexample :
    ((initURLShortener (.snowflake Snowflake.init)).shorten extA 1 1 "x").map
        (fun p => (p.2.set_strategy (.hash (HashShortener.mk "md5"))).resolve p.1) =
      some (some "x") := by
  simp only [initURLShortener, URLShortener.shorten, SnowflakeShortener.get_shortened_url,
    InMemoryDB.save, InMemoryDB.init, Option.map_some', URLShortener.set_strategy,
    URLShortener.resolve, HashShortener.get_longer_url, InMemoryDB.get]
  rw [mapGet_insert_self]

/-- C7 amended: after `set_strategy` replaces the allocator, a code just
allocated under the previous strategy — whichever of the two it was — still
resolves, to the same target as before the swap, because the store is shared
rather than per-strategy. -/
theorem strategy_swap_still_resolves (ext : ExtFns) (fuel ts : Nat) (u : URLShortener)
    (t : String) (snew : Strategy) (c : String) (u1 : URLShortener)
    (hrun : u.shorten ext fuel ts t = some (c, u1)) :
    (u1.set_strategy snew).resolve c = some t ∧
    (u1.set_strategy snew).resolve c = u1.resolve c := by
  obtain ⟨strat, db⟩ := u
  cases strat with
  | hash hs =>
    simp only [URLShortener.shorten, HashShortener.get_shortened_url] at hrun
    cases hloop : HashShortener.hashLoop ext db fuel ((hs._hash ext t).take 7) with
    | none => rw [hloop] at hrun; exact absurd hrun (by simp)
    | some short =>
      rw [hloop] at hrun
      simp only [Option.some.injEq, Prod.mk.injEq] at hrun
      obtain ⟨hc, hu1⟩ := hrun
      subst hc
      subst hu1
      constructor
      · cases snew <;>
          · simp only [URLShortener.set_strategy, URLShortener.resolve,
              HashShortener.get_longer_url, SnowflakeShortener.get_longer_url,
              InMemoryDB.get, InMemoryDB.save]
            exact mapGet_insert_self _ _ _
      · cases snew <;> rfl
  | snowflake st =>
    simp only [URLShortener.shorten, SnowflakeShortener.get_shortened_url,
      Option.some.injEq, Prod.mk.injEq] at hrun
    obtain ⟨hc, hu1⟩ := hrun
    subst hc
    subst hu1
    constructor
    · cases snew <;>
        · simp only [URLShortener.set_strategy, URLShortener.resolve,
            HashShortener.get_longer_url, SnowflakeShortener.get_longer_url,
            InMemoryDB.get, InMemoryDB.save]
          exact mapGet_insert_self _ _ _
    · cases snew <;> rfl

/-- Concrete run for the C7 witness. -/
def u0C7 : URLShortener := initURLShortener (.snowflake Snowflake.init)

/-- The code allocated in the C7 witness run. -/
def c7code : String := base62_encode ((1 <<< 12) ||| 0)

/-- The shortener state after the C7 witness run. -/
def u1C7 : URLShortener :=
  { strategy := .snowflake { last_timestamp := 1, sequence := 0 },
    db := InMemoryDB.init.save extA c7code "x" }

lemma u0C7_run : u0C7.shorten extA 1 1 "x" = some (c7code, u1C7) := by
  simp [u0C7, initURLShortener, URLShortener.shorten, SnowflakeShortener.get_shortened_url,
    Snowflake.generate, Snowflake.init, u1C7, c7code]

/-- Witness for C7 (amended) at a concrete snowflake allocation and a swap to
the hash strategy. -/
theorem strategy_swap_still_resolves_witness :
    (u1C7.set_strategy (.hash (HashShortener.mk "md5"))).resolve c7code = some "x" :=
  (strategy_swap_still_resolves extA 1 1 u0C7 "x"
    (.hash (HashShortener.mk "md5")) c7code u1C7 u0C7_run).1

/-! ## C4 -/

/-- C4 amended: assuming a non-decreasing clock source AND that the sequence
counter stays within its 12-bit range throughout the run (at most 4096 IDs per
millisecond), IDs from one generator are strictly increasing in temporal order
(hence later ≥ earlier, and strictly increasing within one millisecond), and
every ID is packed as `(timestamp << 12) | sequence`.  Without the 12-bit
bound the property fails, see the counterexample. -/
theorem snowflake_monotonic_bounded (tss : List Nat)
    (hchain : List.Chain' (· ≤ ·) tss)
    (hbound : ∀ p ∈ Snowflake.run Snowflake.init tss, p.1.sequence < 4096) :
    (∀ (s : SnowflakeState) (ts : Nat),
        (Snowflake.generate s ts).2 = (ts <<< 12) ||| (Snowflake.generate s ts).1.sequence) ∧
    List.Pairwise (· < ·) ((Snowflake.run Snowflake.init tss).map Prod.snd) := by
  refine ⟨fun s ts => rfl, ?_⟩
  refine List.chain'_iff_pairwise.mp ?_
  refine Snowflake.run_chain_lt tss Snowflake.init hchain hbound ?_
  intro t0 _
  show (Snowflake.init.last_timestamp : Int) ≤ (t0 : Int)
  simp only [Snowflake.init]
  omega

/-- Witness for C4 at the clock trace `[3, 3, 4]`. -/
theorem snowflake_monotonic_bounded_witness :
    List.Chain' (· ≤ ·) [3, 3, 4] ∧
    (∀ p ∈ Snowflake.run Snowflake.init [3, 3, 4], p.1.sequence < 4096) ∧
    List.Pairwise (· < ·) ((Snowflake.run Snowflake.init [3, 3, 4]).map Prod.snd) :=
  ⟨by simp, by decide,
    (snowflake_monotonic_bounded [3, 3, 4] (by simp) (by decide)).2⟩

/-- C4 counterexample: with the clock stuck at millisecond 1 for 4097 calls
(a non-decreasing clock), the 4096th ID is `(1 << 12) ||| 4095 = 8191` but the
4097th is `(1 << 12) ||| 4096 = 4096`: the unbounded sequence counter overlaps
the timestamp bits, so a later ID is numerically smaller than an earlier one
and the within-one-millisecond strict increase fails. -/
theorem snowflake_monotonic_counterexample :
    List.Chain' (· ≤ ·) (List.replicate 4097 1) ∧
    ((Snowflake.run Snowflake.init (List.replicate 4097 1)).map Prod.snd).get? 4095 =
      some 8191 ∧
    ((Snowflake.run Snowflake.init (List.replicate 4097 1)).map Prod.snd).get? 4096 =
      some 4096 ∧
    (4096 : Nat) < 8191 := by
  have hgen : Snowflake.generate Snowflake.init 1 =
      ({ last_timestamp := (1 : Int), sequence := 0 }, (1 <<< 12) ||| 0) := by
    simp [Snowflake.generate, Snowflake.init]
  have hfull : Snowflake.run Snowflake.init (List.replicate 4097 1) =
      ({ last_timestamp := (1 : Int), sequence := 0 }, (1 <<< 12) ||| 0) ::
        Snowflake.run { last_timestamp := (1 : Int), sequence := 0 }
          (List.replicate 4096 1) := by
    show (Snowflake.generate Snowflake.init 1) ::
        Snowflake.run (Snowflake.generate Snowflake.init 1).1 (List.replicate 4096 1) = _
    rw [hgen]
  refine ⟨chain_le_replicate 4097 1, ?_, ?_, by decide⟩ <;>
  · rw [hfull, snowflake_run_const_one 4096 0]
    rw [List.map_cons, List.map_map]
    rw [List.get?_cons_succ]
    rw [List.get?_map, List.get?_range (by decide)]
    simp only [Option.map_some', Function.comp_apply]
    norm_num
    decide

/-! ## C5 -/

/-- The no-false-negative coupling between the exact map and the Bloom filter:
every key present in the map is reported present by the filter.  It holds for
`InMemoryDB.init` (empty map) and is preserved by `save` on well-formed
filters; the hash strategy's collision loop relies on it. -/
def DBInv (ext : ExtFns) (db : InMemoryDB) : Prop :=
  ∀ k v, mapGet db.map k = some v → db.bloom.contains ext k = true

/-- C5 amended: a `shorten` call never changes the target of an existing code,
EXCEPT that a snowflake-strategy call whose freshly generated code collides
with an existing code overwrites that entry (possible when more than 4096 IDs
are drawn in one millisecond, see the counterexample).  Precisely: every
existing entry at a key other than the returned code is preserved, and under
the hash strategy the returned code is never an existing key (the Bloom filter
has no false negatives over saved codes), so the hash strategy preserves every
existing entry. -/
theorem save_no_overwrite_guarded (ext : ExtFns) (fuel ts : Nat) (u : URLShortener)
    (t c : String) (u1 : URLShortener) (hinv : DBInv ext u.db)
    (hrun : u.shorten ext fuel ts t = some (c, u1)) :
    (∀ k v, k ≠ c → mapGet u.db.map k = some v → mapGet u1.db.map k = some v) ∧
    (∀ hs, u.strategy = .hash hs → mapGet u.db.map c = none) ∧
    (∀ hs k v, u.strategy = .hash hs → mapGet u.db.map k = some v →
      mapGet u1.db.map k = some v) := by
  obtain ⟨strat, db⟩ := u
  cases strat with
  | hash hs =>
    simp only [URLShortener.shorten, HashShortener.get_shortened_url] at hrun
    cases hloop : HashShortener.hashLoop ext db fuel ((hs._hash ext t).take 7) with
    | none => rw [hloop] at hrun; exact absurd hrun (by simp)
    | some short =>
      rw [hloop] at hrun
      simp only [Option.some.injEq, Prod.mk.injEq] at hrun
      obtain ⟨hc, hu1⟩ := hrun
      subst hc
      subst hu1
      have hfresh : mapGet db.map short = none := by
        cases hget : mapGet db.map short with
        | none => rfl
        | some v =>
          have hcont := hinv short v hget
          have hex := hashLoop_exit ext db fuel _ short hloop
          rw [InMemoryDB.existsBloom] at hex
          rw [hcont] at hex
          exact absurd hex (by simp)
      refine ⟨?_, fun _ _ => hfresh, ?_⟩
      · intro k v hk hget
        simp only [InMemoryDB.save]
        rw [mapGet_insert_ne db.map short t k hk]
        exact hget
      · intro hs2 k v _ hget
        simp only [InMemoryDB.save]
        by_cases hk : k = short
        · subst hk
          rw [hget] at hfresh
          exact absurd hfresh (by simp)
        · rw [mapGet_insert_ne db.map short t k hk]
          exact hget
  | snowflake st =>
    simp only [URLShortener.shorten, SnowflakeShortener.get_shortened_url,
      Option.some.injEq, Prod.mk.injEq] at hrun
    obtain ⟨hc, hu1⟩ := hrun
    subst hc
    subst hu1
    refine ⟨?_, ?_, ?_⟩
    · intro k v hk hget
      simp only [InMemoryDB.save]
      rw [mapGet_insert_ne db.map _ t k hk]
      exact hget
    · intro hs h
      exact absurd h (by simp)
    · intro hs k v h
      exact absurd h (by simp)

lemma runShorten_cons (ext : ExtFns) (fuel : Nat) (u : URLShortener) (ts : Nat)
    (t : String) (rest : List (Nat × String)) :
    URLShortener.runShorten ext fuel u ((ts, t) :: rest) =
      match u.shorten ext fuel ts t with
      | none => none
      | some (_, u1) => URLShortener.runShorten ext fuel u1 rest := rfl

lemma runShorten_append (ext : ExtFns) (fuel : Nat) :
    ∀ (l1 l2 : List (Nat × String)) (u : URLShortener),
      URLShortener.runShorten ext fuel u (l1 ++ l2) =
        match URLShortener.runShorten ext fuel u l1 with
        | none => none
        | some u1 => URLShortener.runShorten ext fuel u1 l2 := by
  intro l1
  induction l1 with
  | nil => intro l2 u; rfl
  | cons p l1 ih =>
    intro l2 u
    obtain ⟨ts, t⟩ := p
    rw [List.cons_append]
    show (match u.shorten ext fuel ts t with
      | none => none
      | some (_, u1) => URLShortener.runShorten ext fuel u1 (l1 ++ l2)) = _
    cases h : u.shorten ext fuel ts t with
    | none =>
      simp only []
      show none = (match (match u.shorten ext fuel ts t with
        | none => none
        | some (_, u1) => URLShortener.runShorten ext fuel u1 l1) with
        | none => none
        | some u1 => URLShortener.runShorten ext fuel u1 l2)
      rw [h]
    | some r =>
      obtain ⟨c, u1⟩ := r
      simp only []
      show URLShortener.runShorten ext fuel u1 (l1 ++ l2) =
        (match (match u.shorten ext fuel ts t with
          | none => none
          | some (_, u1) => URLShortener.runShorten ext fuel u1 l1) with
          | none => none
          | some u1 => URLShortener.runShorten ext fuel u1 l2)
      rw [h]
      exact ih l2 u1

/-- One snowflake shorten step with the clock stuck at 1 and the state already
at millisecond 1 increments the sequence counter. -/
lemma shorten_snowflake_const_step (ext : ExtFns) (fuel : Nat) (j : Nat)
    (db : InMemoryDB) (t : String) :
    URLShortener.shorten ext fuel 1
        { strategy := .snowflake { last_timestamp := (1 : Int), sequence := j }, db := db } t =
      some (base62_encode ((1 <<< 12) ||| (j + 1)),
        { strategy := .snowflake { last_timestamp := (1 : Int), sequence := j + 1 },
          db := db.save ext (base62_encode ((1 <<< 12) ||| (j + 1))) t }) := by
  simp [URLShortener.shorten, SnowflakeShortener.get_shortened_url, Snowflake.generate]

/-- Iterating that step `k` times from sequence `j` ends at sequence `j + k`. -/
lemma runShorten_snowflake_const (ext : ExtFns) (fuel : Nat) (t : String) :
    ∀ (k j : Nat) (db : InMemoryDB), ∃ db1,
      URLShortener.runShorten ext fuel
          { strategy := .snowflake { last_timestamp := (1 : Int), sequence := j }, db := db }
          (List.replicate k (1, t)) =
        some (URLShortener.mk (.snowflake (SnowflakeState.mk (1 : Int) (j + k))) db1) := by
  intro k
  induction k with
  | zero => intro j db; exact ⟨db, rfl⟩
  | succ k ih =>
    intro j db
    obtain ⟨db1, hdb1⟩ := ih (j + 1)
      (db.save ext (base62_encode ((1 <<< 12) ||| (j + 1))) t)
    refine ⟨db1, ?_⟩
    rw [List.replicate_succ]
    show (match URLShortener.shorten ext fuel 1
        { strategy := .snowflake { last_timestamp := (1 : Int), sequence := j }, db := db } t with
      | none => none
      | some (_, u1) => URLShortener.runShorten ext fuel u1 (List.replicate k (1, t))) = _
    rw [shorten_snowflake_const_step]
    simp only []
    rw [hdb1]
    refine congrArg some ?_
    have harith : j + 1 + k = j + (k + 1) := by omega
    rw [harith]

/-- C5 counterexample: drive 4097 snowflake `shorten` calls all within
millisecond 1 (sequence counter unbounded).  Call 1 allocates the code
`base62_encode ((1 << 12) ||| 0)` = `base62_encode 4096` for target `"a"`;
call 4097 has sequence 4096 and id `(1 << 12) ||| 4096 = 4096` again, so it
saves the SAME code for target `"c"`, overwriting the existing entry: the
code that resolved to `"a"` now resolves to `"c"`. -/
theorem save_overwrite_counterexample :
    ((URLShortener.runShorten extA 1 (initURLShortener (.snowflake Snowflake.init))
        [(1, "a")]).map (fun u => URLShortener.resolve u (base62_encode 4096))) =
      some (some "a") ∧
    ((URLShortener.runShorten extA 1 (initURLShortener (.snowflake Snowflake.init))
        ((1, "a") :: (List.replicate 4095 (1, "b") ++ [(1, "c")]))).map
        (fun u => URLShortener.resolve u (base62_encode 4096))) = some (some "c") ∧
    (some "a" : Option String) ≠ some "c" := by
  have hid0 : ((1 : Nat) <<< 12) ||| 0 = 4096 := by decide
  have hid4096 : ((1 : Nat) <<< 12) ||| 4096 = 4096 := by decide
  have hstep0 : URLShortener.shorten extA 1 1 (initURLShortener (.snowflake Snowflake.init))
      "a" = some (base62_encode 4096,
        { strategy := .snowflake { last_timestamp := (1 : Int), sequence := 0 },
          db := InMemoryDB.init.save extA (base62_encode 4096) "a" }) := by
    rw [← hid0]
    simp [initURLShortener, URLShortener.shorten, SnowflakeShortener.get_shortened_url,
      Snowflake.generate, Snowflake.init]
  refine ⟨?_, ?_, by simp⟩
  · rw [runShorten_cons, hstep0]
    simp only [URLShortener.runShorten, Option.map_some']
    refine congrArg some ?_
    show InMemoryDB.get _ (base62_encode 4096) = some "a"
    simp only [InMemoryDB.get, InMemoryDB.save]
    exact mapGet_insert_self _ _ _
  · rw [runShorten_cons, hstep0]
    simp only []
    rw [runShorten_append]
    obtain ⟨db2, hdb2⟩ := runShorten_snowflake_const extA 1 "b" 4095 0
      (InMemoryDB.init.save extA (base62_encode 4096) "a")
    rw [hdb2]
    simp only []
    have h4095 : (0 : Nat) + 4095 = 4095 := rfl
    rw [h4095]
    have hlast : URLShortener.runShorten extA 1
        (URLShortener.mk (.snowflake (SnowflakeState.mk (1 : Int) 4095)) db2) [(1, "c")] =
        some (URLShortener.mk
          (.snowflake (SnowflakeState.mk (1 : Int) 4096))
          (db2.save extA (base62_encode 4096) "c")) := by
      rw [runShorten_cons]
      have := shorten_snowflake_const_step extA 1 4095 db2 "c"
      have h4096 : (4095 : Nat) + 1 = 4096 := rfl
      rw [h4096, hid4096] at this
      rw [this]
      rfl
    rw [hlast]
    simp only [Option.map_some']
    refine congrArg some ?_
    show InMemoryDB.get _ (base62_encode 4096) = some "c"
    simp only [InMemoryDB.get, InMemoryDB.save]
    exact mapGet_insert_self _ _ _

/-- Store used by the C5 witness: one existing entry `("k0", "v0")` whose
Bloom bits (under `extB`) are set. -/
def dbC5 : InMemoryDB := InMemoryDB.mk [("k0", "v0")] (SimpleBloomFilter.mk 2 [1, 0])

/-- Shortener used by the C5 witness (hash strategy over `dbC5`). -/
def uC5 : URLShortener := URLShortener.mk (.hash (HashShortener.mk "md5")) dbC5

/-- Shortener state after the C5 witness call. -/
def u1C5 : URLShortener :=
  URLShortener.mk (.hash (HashShortener.mk "md5")) (dbC5.save extB "0123456" "u")

lemma dbInvB : DBInv extB dbC5 := by
  intro k v h
  rw [show dbC5.map = [("k0", "v0")] from rfl, mapGet_cons] at h
  cases hk : (("k0", "v0").1 == k) with
  | false =>
    rw [hk, cond_false] at h
    exact absurd h (by simp [mapGet])
  | true =>
    have : "k0" = k := by
      have := hk
      rwa [beq_iff_eq] at this
    subst this
    decide

/-- Witness for C5 (amended): the hash-strategy call allocates the fresh code
`"0123456"` and the pre-existing entry for `"k0"` is untouched. -/
theorem save_no_overwrite_guarded_witness :
    mapGet dbC5.map "k0" = some "v0" ∧ mapGet u1C5.db.map "k0" = some "v0" :=
  ⟨by decide,
    (save_no_overwrite_guarded extB 1 0 uC5 "u" "0123456" u1C5 dbInvB (by decide)).2.2
      (HashShortener.mk "md5") "k0" "v0" rfl (by decide)⟩

/-! ## C6 -/

lemma string_length_take (s : String) (n : Nat) : (s.take n).length = min n s.length := by
  rw [String.take_eq]
  show (s.data.take n).length = min n s.data.length
  exact List.length_take n s.data

/-- C6 amended: the candidate code is `(digest text).take 7`, and the code
returned on an empty store is exactly that candidate.  Its length is
`min 7 (digest text length)`: exactly 7 for `md5` (hex length 32), `sha1`
(hex length 40) and any unrecognized method name (md5 fallback), but for
`crc32` the digest text is `format(crc32, "x")`, which drops leading zeros
and can be shorter than 7 characters (see the counterexample). -/
theorem hash_code_prefix_seven_guarded (ext : ExtFns) (hs : HashShortener)
    (t : String) (fuel : Nat)
    (hmd5 : ∀ s, (ext.md5hex s).length = 32)
    (hsha1 : ∀ s, (ext.sha1hex s).length = 40)
    (hfuel : 0 < fuel) :
    ((hs._hash ext t).take 7).length = min 7 (hs._hash ext t).length ∧
    (hs.method ≠ "crc32" → ((hs._hash ext t).take 7).length = 7) ∧
    (hs.get_shortened_url ext fuel t InMemoryDB.init).map Prod.fst =
      some ((hs._hash ext t).take 7) := by
  refine ⟨string_length_take _ 7, ?_, ?_⟩
  · intro hcrc
    rw [string_length_take]
    rw [HashShortener._hash, if_neg hcrc]
    by_cases hsh : hs.method = "sha1"
    · rw [if_pos hsh, hsha1 t]
      decide
    · rw [if_neg hsh, hmd5 t]
      decide
  · rw [hashShorten_init ext hs fuel t hfuel, Option.map_some']

/-- Witness for C6 (amended) at the `sha1` method. -/
theorem hash_code_prefix_seven_guarded_witness :
    (((HashShortener.mk "sha1")._hash extA "u").take 7).length = 7 :=
  (hash_code_prefix_seven_guarded extA (HashShortener.mk "sha1") "u" 1
    (fun _ => rfl) (fun _ => rfl) (by decide)).2.1 (by decide)

/-- C6 counterexample: under the `crc32` method the digest text is
`format(zlib.crc32(target), "x")`, which has no leading zeros.  The real
`zlib.crc32(b"") == 0` (recorded in `extA.crc32 "" = 0`), so for the empty
target the digest text is `"0"`, the candidate code is `"0"` of length 1,
and the code returned on the empty store is `"0"`: not 7 symbols. -/
theorem hash_code_prefix_counterexample :
    (HashShortener.mk "crc32")._hash extA "" = "0" ∧
    ((HashShortener.mk "crc32")._hash extA "").take 7 = "0" ∧
    ((((HashShortener.mk "crc32")._hash extA "").take 7).length = 7 → False) ∧
    ((HashShortener.mk "crc32").get_shortened_url extA 1 "" InMemoryDB.init).map Prod.fst =
      some "0" := by
  have hh : (HashShortener.mk "crc32")._hash extA "" = "0" := by
    rw [HashShortener._hash, if_pos rfl]
    rfl
  refine ⟨hh, by rw [hh]; rfl, by rw [hh]; decide, ?_⟩
  rw [hashShorten_init extA (HashShortener.mk "crc32") 1 "" (by decide), Option.map_some', hh]
  rfl

/-! ## C9 -/

/-- Spec-side digit value: position of a character in the `BASE62` alphabet
(`'0'..'9','a'..'z','A'..'Z'` ↦ `0..61`; 62 if absent). -/
def b62digitVal (c : Char) : Nat := BASE62.toList.indexOf c

/-- Spec-side value of a string read as a base-62 numeral, most-significant
symbol first. -/
def b62val (s : String) : Nat :=
  s.toList.foldl (fun a c => a * 62 + b62digitVal c) 0

lemma base62_digits_zero : base62_digits 0 = [] := by
  rw [base62_digits]
  rfl

lemma base62_digits_pos (n : Nat) (h : n ≠ 0) :
    base62_digits n = BASE62.toList.getD (n % 62) ' ' :: base62_digits (n / 62) := by
  rw [base62_digits]
  exact dif_neg h

lemma base62_digits_ne_nil (n : Nat) (h : n ≠ 0) : base62_digits n ≠ [] := by
  rw [base62_digits_pos n h]
  exact List.cons_ne_nil _ _

lemma b62digitVal_getD (v : Nat) (h : v < 62) :
    b62digitVal (BASE62.toList.getD v ' ') = v := by
  revert h
  revert v
  decide

lemma getD_mem_alphabet (v : Nat) (h : v < 62) :
    BASE62.toList.getD v ' ' ∈ BASE62.toList := by
  revert h
  revert v
  decide

lemma getD_ne_zero_char (v : Nat) (h : v < 62) (h0 : 0 < v) :
    BASE62.toList.getD v ' ' ≠ '0' := by
  revert h0
  revert h
  revert v
  decide

/-- Reading back the digit list recovers the number. -/
lemma foldr_base62_digits (n : Nat) :
    (base62_digits n).foldr (fun c a => a * 62 + b62digitVal c) 0 = n := by
  induction n using Nat.strong_induction_on with
  | _ n ih =>
    by_cases h : n = 0
    · subst h
      rw [base62_digits_zero]
      rfl
    · rw [base62_digits_pos n h, List.foldr_cons]
      rw [ih (n / 62) (Nat.div_lt_self (Nat.pos_of_ne_zero h) (by norm_num))]
      rw [b62digitVal_getD (n % 62) (Nat.mod_lt n (by norm_num))]
      omega

/-- All digits produced are alphabet characters. -/
lemma base62_digits_mem (n : Nat) : ∀ c ∈ base62_digits n, c ∈ BASE62.toList := by
  induction n using Nat.strong_induction_on with
  | _ n ih =>
    by_cases h : n = 0
    · subst h
      rw [base62_digits_zero]
      intro c hc
      exact absurd hc (List.not_mem_nil c)
    · rw [base62_digits_pos n h]
      intro c hc
      rcases List.mem_cons.mp hc with h1 | h1
      · subst h1
        exact getD_mem_alphabet (n % 62) (Nat.mod_lt n (by norm_num))
      · exact ih (n / 62) (Nat.div_lt_self (Nat.pos_of_ne_zero h) (by norm_num)) c h1

/-- The most significant digit (last of the LSD-first list) is never `'0'`. -/
lemma base62_digits_getLast_ne_zero (n : Nat) (h : n ≠ 0) (d : Char)
    (hd : (base62_digits n).getLast? = some d) : d ≠ '0' := by
  induction n using Nat.strong_induction_on with
  | _ n ih =>
    rw [base62_digits_pos n h] at hd
    by_cases h2 : n / 62 = 0
    · rw [h2, base62_digits_zero] at hd
      simp only [List.getLast?_singleton, Option.some.injEq] at hd
      subst hd
      have hlt : n % 62 < 62 := Nat.mod_lt n (by norm_num)
      have hgt : 0 < n % 62 := by
        rcases Nat.eq_zero_or_pos (n % 62) with h3 | h3
        · exfalso
          exact h (by omega)
        · exact h3
      exact getD_ne_zero_char (n % 62) hlt hgt
    · rw [base62_digits_pos (n / 62) h2] at hd
      rw [List.getLast?_cons_cons] at hd
      rw [← base62_digits_pos (n / 62) h2] at hd
      exact ih (n / 62) (Nat.div_lt_self (Nat.pos_of_ne_zero h) (by norm_num)) h2 hd

/-- Lower bound: the digit list never has superfluous length. -/
lemma base62_digits_low (n : Nat) (h : n ≠ 0) :
    62 ^ ((base62_digits n).length - 1) ≤ n := by
  induction n using Nat.strong_induction_on with
  | _ n ih =>
    rw [base62_digits_pos n h, List.length_cons]
    by_cases h2 : n / 62 = 0
    · rw [h2, base62_digits_zero]
      have hp := Nat.pos_of_ne_zero h
      norm_num
      omega
    · have hlen : (base62_digits (n / 62)).length ≠ 0 := by
        intro hcon
        exact base62_digits_ne_nil (n / 62) h2 (List.length_eq_zero.mp hcon)
      have hih := ih (n / 62) (Nat.div_lt_self (Nat.pos_of_ne_zero h) (by norm_num)) h2
      have hstep : 62 ^ (base62_digits (n / 62)).length ≤ 62 * (n / 62) := by
        calc 62 ^ (base62_digits (n / 62)).length
            = 62 * 62 ^ ((base62_digits (n / 62)).length - 1) := by
              rw [← Nat.pow_succ']
              congr 1
              omega
          _ ≤ 62 * (n / 62) := Nat.mul_le_mul_left 62 hih
      calc 62 ^ ((base62_digits (n / 62)).length + 1 - 1)
          = 62 ^ (base62_digits (n / 62)).length := by congr 1
        _ ≤ 62 * (n / 62) := hstep
        _ ≤ n := by
            have := Nat.div_mul_le_self n 62
            omega

/-- Upper bound on the value of any digit string. -/
lemma foldl_val_upper : ∀ (l : List Char) (a : Nat), (∀ c ∈ l, b62digitVal c < 62) →
    l.foldl (fun a c => a * 62 + b62digitVal c) a < (a + 1) * 62 ^ l.length := by
  intro l
  induction l with
  | nil =>
    intro a _
    simp only [List.foldl_nil, List.length_nil, Nat.pow_zero, Nat.mul_one]
    exact Nat.lt_succ_self a
  | cons c l ih =>
    intro a hc
    rw [List.foldl_cons, List.length_cons]
    have hcv : b62digitVal c < 62 := hc c (List.mem_cons_self c l)
    have h1 := ih (a * 62 + b62digitVal c) (fun x hx => hc x (List.mem_cons_of_mem c hx))
    calc List.foldl (fun a c => a * 62 + b62digitVal c) (a * 62 + b62digitVal c) l
        < (a * 62 + b62digitVal c + 1) * 62 ^ l.length := h1
      _ ≤ ((a + 1) * 62) * 62 ^ l.length := by
          have : a * 62 + b62digitVal c + 1 ≤ (a + 1) * 62 := by nlinarith
          exact Nat.mul_le_mul_right _ this
      _ = (a + 1) * 62 ^ (l.length + 1) := by ring

lemma b62digitVal_lt (c : Char) (h : c ∈ BASE62.toList) : b62digitVal c < 62 := by
  have hlt := List.indexOf_lt_length.mpr h
  have hlen : BASE62.toList.length = 62 := by decide
  rw [hlen] at hlt
  exact hlt

lemma base62_encode_zero : base62_encode 0 = "0" := by
  rw [base62_encode]
  rfl

lemma base62_encode_ten : base62_encode 10 = "a" := by
  rw [base62_encode, if_neg (by decide), base62_digits_pos 10 (by decide)]
  rw [show (10 : Nat) / 62 = 0 from rfl, base62_digits_zero]
  decide

lemma base62_encode_sixtyone : base62_encode 61 = "Z" := by
  rw [base62_encode, if_neg (by decide), base62_digits_pos 61 (by decide)]
  rw [show (61 : Nat) / 62 = 0 from rfl, base62_digits_zero]
  decide

/-- C9: `base62_encode 0 = "0"`, `base62_encode 10 = "a"`,
`base62_encode 61 = "Z"`, and for every positive `n` the encoding is a
base-62 numeral over the alphabet `0-9a-zA-Z`, most-significant symbol first,
whose value is `n`, with no leading `'0'`, and of minimal length among all
alphabet strings of value `n` (so it is the shortest representation). -/
theorem base62_encode_correct :
    base62_encode 0 = "0" ∧ base62_encode 10 = "a" ∧ base62_encode 61 = "Z" ∧
    ∀ n, 0 < n →
      b62val (base62_encode n) = n ∧
      (∀ c ∈ (base62_encode n).toList, c ∈ BASE62.toList) ∧
      (base62_encode n).toList.head? ≠ some '0' ∧
      (∀ s, (∀ c ∈ s.toList, c ∈ BASE62.toList) → b62val s = n →
        (base62_encode n).length ≤ s.length) := by
  refine ⟨base62_encode_zero, base62_encode_ten, base62_encode_sixtyone, ?_⟩
  intro n hn
  have hne : n ≠ 0 := by omega
  have henc : base62_encode n = String.mk (base62_digits n).reverse := by
    rw [base62_encode, if_neg hne]
  have htl : (base62_encode n).toList = (base62_digits n).reverse := by
    rw [henc]
    rfl
  refine ⟨?_, ?_, ?_, ?_⟩
  · rw [b62val, htl, List.foldl_reverse]
    exact foldr_base62_digits n
  · intro c hc
    rw [htl] at hc
    exact base62_digits_mem n c (List.mem_reverse.mp hc)
  · rw [htl, List.head?_reverse]
    intro hcon
    exact base62_digits_getLast_ne_zero n hne '0' hcon rfl
  · intro s hmem hval
    have hlenE : (base62_encode n).length = (base62_digits n).length := by
      rw [henc]
      show (base62_digits n).reverse.length = _
      exact List.length_reverse _
    have hlow : 62 ^ ((base62_digits n).length - 1) ≤ n := base62_digits_low n hne
    have hup : n < 62 ^ s.length := by
      rw [← hval, b62val]
      have hsl : s.length = s.toList.length := rfl
      rw [hsl]
      have h1 := foldl_val_upper s.toList 0 (fun c hc => b62digitVal_lt c (hmem c hc))
      simpa using h1
    have hne2 : (base62_digits n).length ≠ 0 := fun hc =>
      base62_digits_ne_nil n hne (List.length_eq_zero.mp hc)
    have hlt : (base62_digits n).length - 1 < s.length := by
      by_contra hcon
      push_neg at hcon
      have : (62 : Nat) ^ s.length ≤ 62 ^ ((base62_digits n).length - 1) :=
        Nat.pow_le_pow_right (by norm_num) hcon
      omega
    rw [hlenE]
    omega

/-- Witness for C9 at `n = 123` (`123 = 1·62 + 61`, so `"1Z"`). -/
theorem base62_encode_correct_witness :
    0 < 123 ∧ b62val (base62_encode 123) = 123 :=
  ⟨by decide, (base62_encode_correct.2.2.2 123 (by decide)).1⟩
